import Mathlib

/-!
Shallow embedding of the ETL core of the coinbase pipeline
(src/ETL_process: transform.py, load.py, pipeline.py).

Numbers are modelled as rationals (`ℚ`); Python's `round` (banker's
rounding to `n` decimal places) and `int` (truncation toward zero) are
modelled exactly on `ℚ`.  A raw candle is a `List ℚ` (the JSON array
`[timestamp, low, high, open, close, volume]`; the arity check in
`is_valid` needs the list form).  The DuckDB table is modelled as a list
of rows keyed by `(product, timestamp)`; `INSERT OR REPLACE` replaces the
row(s) with a matching key in place, otherwise appends.
-/

/-- Python `round` half-to-even of a rational to an integer. -/
def roundHalfEvenZ (q : ℚ) : ℤ :=
  let f := ⌊q⌋
  let r := q - (f : ℚ)
  if r < 1/2 then f
  else if 1/2 < r then f + 1
  else if f % 2 = 0 then f else f + 1

/-- Python `round(x, n)`: round to `n` decimal places, ties to even. -/
def pyRound (q : ℚ) (n : ℕ) : ℚ :=
  (roundHalfEvenZ (q * (10 : ℚ) ^ n) : ℚ) / (10 : ℚ) ^ n

/-- Python `int(x)`: truncation toward zero. -/
def pyInt (q : ℚ) : ℤ :=
  if 0 ≤ q then ⌊q⌋ else ⌈q⌉

/-- Zero-pad a natural to two digits. -/
def pad2 (n : ℕ) : String :=
  if n < 10 then "0" ++ toString n else toString n

/-- Zero-pad a natural to four digits (year field of `isoformat`). -/
def pad4 (n : ℕ) : String :=
  if n < 10 then "000" ++ toString n
  else if n < 100 then "00" ++ toString n
  else if n < 1000 then "0" ++ toString n
  else toString n

/-- Zero-pad a natural to six digits (microsecond field of `isoformat`). -/
def pad6 (n : ℕ) : String :=
  if n < 10 then "00000" ++ toString n
  else if n < 100 then "0000" ++ toString n
  else if n < 1000 then "000" ++ toString n
  else if n < 10000 then "00" ++ toString n
  else if n < 100000 then "0" ++ toString n
  else toString n

/-- Proleptic-Gregorian civil date from a count of days since the Unix
epoch (Hinnant's algorithm), as `(year, month, day)`. -/
def civilFromDays (z0 : ℤ) : ℤ × ℕ × ℕ :=
  let z := z0 + 719468
  let era := Int.fdiv z 146097
  let doe := (z - era * 146097).toNat
  let yoe := (doe - doe / 1460 + doe / 36524 - doe / 146096) / 365
  let y := (yoe : ℤ) + era * 400
  let doy := doe - (365 * yoe + yoe / 4 - yoe / 100)
  let mp := (5 * doy + 2) / 153
  let d := doy - (153 * mp + 2) / 5 + 1
  let m := if mp < 10 then mp + 3 else mp - 9
  (if m ≤ 2 then y + 1 else y, m, d)

/-- Date-and-time part of `datetime.fromtimestamp(sec, tz=utc).isoformat()`
for a whole number of epoch seconds (no fractional part, no offset). -/
def isoCoreFromEpoch (sec : ℤ) : String :=
  let days := Int.fdiv sec 86400
  let sod := (sec - days * 86400).toNat
  let ymd := civilFromDays days
  pad4 ymd.1.toNat ++ "-" ++ pad2 ymd.2.1 ++ "-" ++ pad2 ymd.2.2 ++ "T" ++
    pad2 (sod / 3600) ++ ":" ++ pad2 (sod % 3600 / 60) ++ ":" ++ pad2 (sod % 60)

/-- `datetime.fromtimestamp(sec, tz=timezone.utc).isoformat()` for an
integer number of epoch seconds. -/
def isoFromEpoch (sec : ℤ) : String :=
  isoCoreFromEpoch sec ++ "+00:00"

/-- `datetime.fromtimestamp(ts, tz=timezone.utc).isoformat()` for a
rational timestamp: CPython converts to microseconds with half-even
rounding and prints a `.ffffff` part exactly when it is nonzero. -/
def isoFromEpochRat (ts : ℚ) : String :=
  let usTotal := roundHalfEvenZ (ts * 1000000)
  let sec := Int.fdiv usTotal 1000000
  let micro := (usTotal - sec * 1000000).toNat
  isoCoreFromEpoch sec ++ (if micro = 0 then "" else "." ++ pad6 micro) ++ "+00:00"

/-- Embedding of `transform.is_valid` (src/ETL_process/transform.py):
arity 6, `ts > 0`, all of low/high/open/close `> 0`, `vol >= 0`,
`high >= low`. -/
def is_valid (candle : List ℚ) : Bool :=
  if candle.length = 6 then
    match candle with
    | [ts, low, high, open_, close, vol] =>
      if ts ≤ 0 then false
      else if [low, high, open_, close].any (fun p => decide (p ≤ 0)) then false
      else if vol < 0 then false
      else if high < low then false
      else true
    | _ => false
  else false

/-- The enriched record built by `transform.transform_candle`
(the dict literal in src/ETL_process/transform.py). -/
structure Candle where
  product : String
  timestamp : ℤ
  datetime : String
  open_ : ℚ
  high : ℚ
  low : ℚ
  close : ℚ
  volume : ℚ
  avg_price : ℚ
  price_change : ℚ
  price_change_pct : ℚ
deriving DecidableEq

/-- Fallback record: `transform_candle` raises in Python when the raw
candle does not have 6 elements; that branch is unreachable on valid
input and is modelled by this dummy value. -/
def dummyCandle : Candle :=
  { product := "", timestamp := 0, datetime := "", open_ := 0, high := 0,
    low := 0, close := 0, volume := 0, avg_price := 0, price_change := 0,
    price_change_pct := 0 }

/-- Embedding of `transform.transform_candle`: unpack
`[ts, low, high, open, close, vol]`, derive `avg`, `change`,
`change_pct` (zero when `open` is falsy), round to 2/2/4 places. -/
def transform_candle (candle : List ℚ) (product : String) : Candle :=
  match candle with
  | [ts, low, high, open_, close, vol] =>
    let avg := (high + low + open_ + close) / 4
    let change := close - open_
    let change_pct := if open_ ≠ 0 then change / open_ * 100 else 0
    { product := product
      timestamp := pyInt ts
      datetime := isoFromEpochRat ts
      open_ := open_
      high := high
      low := low
      close := close
      volume := vol
      avg_price := pyRound avg 2
      price_change := pyRound change 2
      price_change_pct := pyRound change_pct 4 }
  | _ => dummyCandle

/-- Comparison key of the Python `result.sort(key=lambda x: x["timestamp"])`. -/
def tsLE (a b : Candle) : Prop :=
  a.timestamp ≤ b.timestamp

instance : DecidableRel tsLE :=
  fun a b => inferInstanceAs (Decidable (a.timestamp ≤ b.timestamp))

instance : IsTotal Candle tsLE :=
  ⟨fun a b => le_total a.timestamp b.timestamp⟩

instance : IsTrans Candle tsLE :=
  ⟨fun _ _ _ h1 h2 => le_trans h1 h2⟩

/-- Embedding of `transform.transform_product_data`: keep the valid
candles, transform them, and stable-sort ascending by timestamp
(Python's `list.sort` is a stable sort; it is modelled by the stable
`List.insertionSort`). -/
def transform_product_data (raw_candles : List (List ℚ)) (product : String) :
    List Candle :=
  let valid := raw_candles.filter is_valid
  let result := valid.map (fun c => transform_candle c product)
  List.insertionSort tsLE result

/-- A stored row of the `candles` table (src/ETL_process/load.py,
`CREATE_TABLE`): same columns as the enriched record; the `datetime`
column holds the instant parsed by `datetime.fromisoformat` after the
`"Z" -> "+00:00"` rewrite, represented here by the rewritten string. -/
structure DbRow where
  product : String
  timestamp : ℤ
  datetime : String
  open_ : ℚ
  high : ℚ
  low : ℚ
  close : ℚ
  volume : ℚ
  avg_price : ℚ
  price_change : ℚ
  price_change_pct : ℚ
deriving DecidableEq

/-- The composite primary key `(product, timestamp)`. -/
def keyOf (r : DbRow) : String × ℤ :=
  (r.product, r.timestamp)

/-- The row tuple built for one candle inside `load.insert_candles`. -/
def rowOfCandle (c : Candle) : DbRow :=
  { product := c.product
    timestamp := c.timestamp
    datetime := (c.datetime.replace "Z" "+00:00")
    open_ := c.open_
    high := c.high
    low := c.low
    close := c.close
    volume := c.volume
    avg_price := c.avg_price
    price_change := c.price_change
    price_change_pct := c.price_change_pct }

/-- One `INSERT OR REPLACE` execution: a row whose `(product, timestamp)`
key already exists is overwritten in place, otherwise the row is
appended. -/
def upsertRow (conn : List DbRow) (row : DbRow) : List DbRow :=
  if conn.any (fun r => decide (keyOf r = keyOf row)) then
    conn.map (fun r => if keyOf r = keyOf row then row else r)
  else conn ++ [row]

/-- Embedding of `load.insert_candles`: no-op returning 0 on an empty
input, otherwise build the row tuples and run `INSERT OR REPLACE` for
each in order; returns the new table and the count `len(rows)`. -/
def insert_candles (conn : List DbRow) (candles : List Candle) :
    List DbRow × ℕ :=
  if candles.isEmpty then (conn, 0)
  else
    let rows := candles.map rowOfCandle
    (rows.foldl upsertRow conn, rows.length)

/-- Embedding of `load.get_last_timestamp`:
`SELECT MAX(timestamp) FROM candles WHERE product = ?`, then the Python
truthiness filter `result[0] if result[0] else None` (`MAX` over no rows
is NULL; an integer result of 0 is falsy and also becomes None). -/
def get_last_timestamp (conn : List DbRow) (product : String) : Option ℤ :=
  let res := ((conn.filter (fun r => decide (r.product = product))).map
    (fun r => r.timestamp)).max?
  match res with
  | none => none
  | some m => if m = 0 then none else some m

/-- Embedding of `load.get_counts`:
`SELECT product, COUNT(*) FROM candles GROUP BY product`, modelled as
the per-product row-count function. -/
def get_counts (conn : List DbRow) (product : String) : ℕ :=
  (conn.filter (fun r => decide (r.product = product))).length

/-- Pipeline configuration (src/ETL_process/config.py). -/
def START_DATE : String := "2025-11-17T00:00:00Z"

/-- Configured end of the fetch window (src/ETL_process/config.py). -/
def END_DATE : String := "2025-11-24T23:59:59Z"

/-- Configured default product list (src/ETL_process/config.py). -/
def PRODUCTS : List String := ["BTC-USD", "ETH-USD"]

/-- Python truthiness of an optional string (`if start:`): None and the
empty string are falsy. -/
def pyTruthyStrOpt : Option String → Bool
  | none => false
  | some s => decide (s ≠ "")

/-- Python truthiness of an optional integer (`if last:`): None and 0
are falsy. -/
def pyTruthyIntOpt : Option ℤ → Bool
  | none => false
  | some n => decide (n ≠ 0)

/-- Python truthiness of an optional list (`products or config.PRODUCTS`):
None and the empty list are falsy. -/
def pyTruthyListOpt : Option (List String) → Bool
  | none => false
  | some l => decide (l ≠ [])

/-- The start-window computation inlined in `pipeline.run`
("figure out start date"): `if start: ... elif incremental: ... else:`
with `fetch_start = datetime.fromtimestamp(last + 1, tz=utc).isoformat()`
when a truthy last timestamp exists. -/
def plan_fetch_start (conn : List DbRow) (product : String)
    (start : Option String) (incremental : Bool) : String :=
  if pyTruthyStrOpt start then start.getD ""
  else if incremental then
    let last := get_last_timestamp conn product
    if pyTruthyIntOpt last then isoFromEpoch (last.getD 0 + 1)
    else START_DATE
  else START_DATE

/-- Per-invocation counters of `pipeline.run`. -/
structure RunStats where
  fetched : ℕ
  transformed : ℕ
  loaded : ℕ
deriving DecidableEq

/-- State threaded through the product loop of `pipeline.run`, plus the
pending exception of the loop body (errors of the external fetch call
propagate as values of the `err` field). -/
structure LoopResult where
  conn : List DbRow
  stats : RunStats
  processed : List String
  err : Option String
deriving DecidableEq

/-- The `for product in products` loop body of `pipeline.run`: plan the
window, fetch (an error aborts the loop at once), skip empty results,
otherwise transform and upsert.  `processed` records the products whose
iteration was entered. -/
def runLoop (fetchFn : String → String → String → Except String (List (List ℚ)))
    (start : Option String) (endD : String) (incremental : Bool) :
    List String → List DbRow → RunStats → List String → LoopResult
  | [], conn, stats, processed =>
    { conn := conn, stats := stats, processed := processed, err := none }
  | product :: rest, conn, stats, processed =>
    let fetch_start := plan_fetch_start conn product start incremental
    match fetchFn product fetch_start endD with
    | Except.error e =>
      { conn := conn, stats := stats, processed := processed ++ [product],
        err := some e }
    | Except.ok raw =>
      let stats1 := { stats with fetched := stats.fetched + raw.length }
      if raw.isEmpty then
        runLoop fetchFn start endD incremental rest conn stats1
          (processed ++ [product])
      else
        let cleaned := transform_product_data raw product
        let stats2 := { stats1 with
          transformed := stats1.transformed + cleaned.length }
        let loadRes := insert_candles conn cleaned
        let stats3 := { stats2 with loaded := stats2.loaded + loadRes.2 }
        runLoop fetchFn start endD incremental rest loadRes.1 stats3
          (processed ++ [product])

/-- Result of one `pipeline.run` invocation: the outcome (stats or the
propagated exception), the final table, how many times the connection
was closed, and the products whose loop iteration was entered. -/
structure RunOutcome where
  result : Except String RunStats
  db : List DbRow
  connCloses : ℕ
  processed : List String

/-- Embedding of `pipeline.run`: apply the `or`-defaults to `products`
and `end`, open the connection once, run the product loop inside
`try`, and close the connection exactly once in `finally` on both the
normal and the exceptional path.  The external HTTP call
`fetch.fetch_candles` is the oracle `fetchFn`; a raised request error is
its `Except.error` value. -/
def run (fetchFn : String → String → String → Except String (List (List ℚ)))
    (products : Option (List String)) (start : Option String)
    (endOpt : Option String) (incremental : Bool) (db : List DbRow) :
    RunOutcome :=
  let prods := if pyTruthyListOpt products then products.getD [] else PRODUCTS
  let endD := if pyTruthyStrOpt endOpt then endOpt.getD "" else END_DATE
  let r := runLoop fetchFn start endD incremental prods db
    { fetched := 0, transformed := 0, loaded := 0 } []
  match r.err with
  | some e =>
    { result := Except.error e, db := r.conn, connCloses := 1,
      processed := r.processed }
  | none =>
    { result := Except.ok r.stats, db := r.conn, connCloses := 1,
      processed := r.processed }

/-- Characterization of `is_valid` on a 6-element candle. -/
theorem is_valid_iff (ts low high open_ close vol : ℚ) :
    is_valid [ts, low, high, open_, close, vol] = true ↔
      (0 < ts ∧ 0 < low ∧ 0 < high ∧ 0 < open_ ∧ 0 < close ∧ 0 ≤ vol ∧
        low ≤ high) := by
  simp only [is_valid, List.length_cons, List.length_nil, if_true,
    List.any_cons, List.any_nil, Bool.or_false, decide_eq_true_eq,
    Bool.or_eq_true, reduceIte]
  by_cases h1 : ts ≤ 0 <;> by_cases h2 : low ≤ 0 <;> by_cases h3 : high ≤ 0 <;>
    by_cases h4 : open_ ≤ 0 <;> by_cases h5 : close ≤ 0 <;>
    by_cases h6 : vol < 0 <;> by_cases h7 : high < low <;>
    simp [h1, h2, h3, h4, h5, h6, h7] <;> push_neg at * <;> tauto

/-- A candle accepted by `is_valid` has exactly 6 elements. -/
theorem is_valid_shape {c : List ℚ} (h : is_valid c = true) :
    ∃ ts low high open_ close vol : ℚ,
      c = [ts, low, high, open_, close, vol] := by
  rcases c with _ | ⟨a, _ | ⟨b, _ | ⟨d, _ | ⟨e, _ | ⟨f, _ | ⟨g, _ | ⟨x, t⟩⟩⟩⟩⟩⟩⟩ <;>
    simp_all [is_valid]


unseal Rat.mul Rat.inv Rat.add Rat.sub Rat.ofScientific in
/-- Concrete evaluation of the derived fields on the spec's example
candle. -/
theorem c1_concrete_aux :
    (transform_candle [1700000000, 100, 200, 150, 180, 10] "BTC-USD").avg_price
        = 157.5 ∧
    (transform_candle [1700000000, 100, 200, 150, 180, 10] "BTC-USD").price_change
        = 30 ∧
    (transform_candle [1700000000, 100, 200, 150, 180, 10] "BTC-USD").price_change_pct
        = 20 := by
  refine ⟨?_, ?_, ?_⟩ <;> decide

/-- C1: for every valid raw candle and product, `transform_candle`
yields `avg_price = round(mean(open, high, low, close), 2)`,
`price_change = round(close - open, 2)` and
`price_change_pct = round((close - open)/open * 100, 4)` when `open` is
nonzero and `0` otherwise; in particular on
`[1700000000, 100, 200, 150, 180, 10]` and product "BTC-USD" the derived
fields are `157.5`, `30.0` and `20.0`. -/
theorem c1_transform_derived_fields :
    (∀ (ts low high open_ close vol : ℚ) (product : String),
      is_valid [ts, low, high, open_, close, vol] = true →
      (transform_candle [ts, low, high, open_, close, vol] product).avg_price
          = pyRound ((open_ + high + low + close) / 4) 2 ∧
      (transform_candle [ts, low, high, open_, close, vol] product).price_change
          = pyRound (close - open_) 2 ∧
      (transform_candle [ts, low, high, open_, close, vol] product).price_change_pct
          = (if open_ ≠ 0 then pyRound ((close - open_) / open_ * 100) 4 else 0)) ∧
    ((transform_candle [1700000000, 100, 200, 150, 180, 10] "BTC-USD").avg_price
        = 157.5 ∧
     (transform_candle [1700000000, 100, 200, 150, 180, 10] "BTC-USD").price_change
        = 30 ∧
     (transform_candle [1700000000, 100, 200, 150, 180, 10] "BTC-USD").price_change_pct
        = 20) := by
  constructor
  · intro ts low high open_ close vol product h
    rw [is_valid_iff] at h
    have hopen : open_ ≠ 0 := ne_of_gt h.2.2.2.1
    refine ⟨?_, ?_, ?_⟩
    · simp only [transform_candle]
      congr 1
      ring
    · simp only [transform_candle]
    · simp only [transform_candle, if_pos hopen, hopen, if_true]
  · exact c1_concrete_aux

/-- C1 witness: the general part of `c1_transform_derived_fields`
applied at the concrete valid candle of the claim. -/
theorem c1_transform_derived_fields_witness :
    is_valid [1700000000, 100, 200, 150, 180, 10] = true ∧
    ((transform_candle [1700000000, 100, 200, 150, 180, 10] "BTC-USD").avg_price
        = pyRound ((150 + 200 + 100 + 180) / 4) 2 ∧
     (transform_candle [1700000000, 100, 200, 150, 180, 10] "BTC-USD").price_change
        = pyRound (180 - 150) 2 ∧
     (transform_candle [1700000000, 100, 200, 150, 180, 10] "BTC-USD").price_change_pct
        = (if (150 : ℚ) ≠ 0 then pyRound ((180 - 150) / 150 * 100) 4 else 0)) :=
  ⟨by decide,
   c1_transform_derived_fields.1 1700000000 100 200 150 180 10 "BTC-USD" (by decide)⟩

/-- Logical complement of the `is_valid` acceptance conjunction. -/
theorem not_valid_conj_iff (ts low high open_ close vol : ℚ) :
    ¬ (0 < ts ∧ 0 < low ∧ 0 < high ∧ 0 < open_ ∧ 0 < close ∧
        0 ≤ vol ∧ low ≤ high) ↔
      (ts ≤ 0 ∨ open_ ≤ 0 ∨ high ≤ 0 ∨ low ≤ 0 ∨ close ≤ 0 ∨ vol < 0 ∨
        high < low) := by
  simp only [not_and_or, not_lt, not_le]
  tauto

/-- C2: `is_valid` returns false exactly when the arity is not 6, or the
timestamp is nonpositive, or one of open/high/low/close is nonpositive,
or the volume is negative, or `high < low`. -/
theorem c2_validation_boundary (candle : List ℚ) :
    is_valid candle = false ↔
      candle.length ≠ 6 ∨
      ∃ ts low high open_ close vol : ℚ,
        candle = [ts, low, high, open_, close, vol] ∧
        (ts ≤ 0 ∨ open_ ≤ 0 ∨ high ≤ 0 ∨ low ≤ 0 ∨ close ≤ 0 ∨ vol < 0 ∨
          high < low) := by
  by_cases h6 : candle.length = 6
  · obtain ⟨ts, low, high, open_, close, vol, rfl⟩ :
        ∃ ts low high open_ close vol : ℚ,
          candle = [ts, low, high, open_, close, vol] := by
      rcases candle with _ | ⟨a, _ | ⟨b, _ | ⟨c, _ | ⟨d, _ | ⟨e, _ | ⟨f, _ | ⟨x, t⟩⟩⟩⟩⟩⟩⟩ <;>
        first
          | (exact ⟨a, b, c, d, e, f, rfl⟩)
          | simp_all
    have hiff := is_valid_iff ts low high open_ close vol
    have hD := not_valid_conj_iff ts low high open_ close vol
    constructor
    · intro hfalse
      refine Or.inr ⟨ts, low, high, open_, close, vol, rfl, hD.mp ?_⟩
      intro hc
      rw [hiff.mpr hc] at hfalse
      exact Bool.noConfusion hfalse
    · rintro (h | ⟨ts2, low2, high2, open2, close2, vol2, heq, hbad⟩)
      · exact absurd h6 h
      · have h' := heq
        simp only [List.cons.injEq, and_true] at h'
        obtain ⟨rfl, rfl, rfl, rfl, rfl, rfl⟩ := h'
        cases hval : is_valid [ts, low, high, open_, close, vol]
        · rfl
        · exact absurd (hiff.mp hval) (hD.mpr hbad)
  · constructor
    · intro _
      exact Or.inl h6
    · intro _
      cases hval : is_valid candle
      · rfl
      · exact absurd (by
          obtain ⟨ts, low, high, open_, close, vol, rfl⟩ := is_valid_shape hval
          rfl) h6

/-- Specialization of `List.max?_eq_some_iff` to `ℤ`. -/
theorem int_max?_eq_some_iff (xs : List ℤ) (a : ℤ) :
    xs.max? = some a ↔ a ∈ xs ∧ ∀ b ∈ xs, b ≤ a :=
  @List.max?_eq_some_iff ℤ a Int.instMax Int.instLEInt
    ⟨fun h1 h2 => Int.le_antisymm h1 h2⟩ (fun x => le_refl x)
    (fun x y => max_choice x y) (fun _ _ _ => max_le_iff) xs

/-- A sample stored row with a given key, used in concrete store states. -/
def mkRow (p : String) (t : ℤ) : DbRow :=
  { product := p, timestamp := t, datetime := "1970-01-01T00:00:00+00:00",
    open_ := 1, high := 2, low := 1, close := 1, volume := 0, avg_price := 1,
    price_change := 0, price_change_pct := 0 }

/-- C7 counterexample: a store state holding exactly one row for
"BTC-USD", with stored timestamp 0, on which `get_last_timestamp`
returns none even though a row for the product exists (the Python
truthiness check `result[0] if result[0] else None` treats the integer
0 like NULL). -/
theorem c7_counterexample :
    get_last_timestamp [mkRow "BTC-USD" 0] "BTC-USD" = none ∧
    List.filter (fun r => decide (r.product = "BTC-USD"))
      [mkRow "BTC-USD" 0] ≠ [] := by
  constructor
  · rfl
  · decide

/-- C7 (amended): on any store state whose rows all carry a positive
timestamp — which is every state the pipeline itself can produce, since
validation forces `timestamp > 0` — `get_last_timestamp` returns none
iff no rows exist for the product, and any returned value is the
maximum stored timestamp among the product's rows.  (Without the
positivity restriction a stored maximum timestamp of 0 is reported as
none, see the counterexample.) -/
theorem c7_last_timestamp (conn : List DbRow) (p : String)
    (hpos : ∀ r ∈ conn, 0 < r.timestamp) :
    (get_last_timestamp conn p = none ↔
      List.filter (fun r => decide (r.product = p)) conn = []) ∧
    (∀ m, get_last_timestamp conn p = some m →
      (∃ r ∈ conn, r.product = p ∧ r.timestamp = m) ∧
      ∀ r ∈ conn, r.product = p → r.timestamp ≤ m) := by
  simp only [get_last_timestamp]
  cases hmax : (List.map (fun r => r.timestamp)
      (List.filter (fun r => decide (r.product = p)) conn)).max? with
  | none =>
    have hnil : List.map (fun r => r.timestamp)
        (List.filter (fun r => decide (r.product = p)) conn) = [] :=
      List.max?_eq_none_iff.mp hmax
    have hfil : List.filter (fun r => decide (r.product = p)) conn = [] :=
      List.map_eq_nil.mp hnil
    constructor
    · simp [hfil]
    · intro m hm
      simp at hm
  | some m =>
    have hchar := (int_max?_eq_some_iff _ m).mp hmax
    obtain ⟨hmem, hbound⟩ := hchar
    obtain ⟨r0, hr0fil, hr0ts⟩ := List.mem_map.mp hmem
    have hr0conn : r0 ∈ conn := List.mem_of_mem_filter hr0fil
    have hr0p : r0.product = p :=
      of_decide_eq_true (List.mem_filter.mp hr0fil).2
    have hmpos : 0 < m := hr0ts ▸ hpos r0 hr0conn
    have hmne : ¬ m = 0 := by omega
    constructor
    · simp only [if_neg hmne]
      constructor
      · intro h
        exact absurd h (by simp)
      · intro h
        rw [h] at hr0fil
        exact absurd hr0fil (List.not_mem_nil r0)
    · intro m' hm'
      have hm2 : (if m = 0 then none else some m : Option ℤ) = some m' := hm'
      rw [if_neg hmne] at hm2
      have hmm : m = m' := by
        injection hm2
      subst hmm
      refine ⟨⟨r0, hr0conn, hr0p, hr0ts⟩, ?_⟩
      intro r hr hrp
      exact hbound r.timestamp (List.mem_map.mpr
        ⟨r, List.mem_filter.mpr ⟨hr, decide_eq_true hrp⟩, rfl⟩)

/-- C7 witness: the amended characterization applied to a one-row store
with a positive timestamp. -/
theorem c7_last_timestamp_witness :
    (∀ r ∈ [mkRow "BTC-USD" 5], 0 < r.timestamp) ∧
    ((get_last_timestamp [mkRow "BTC-USD" 5] "BTC-USD" = none ↔
      List.filter (fun r => decide (r.product = "BTC-USD"))
        [mkRow "BTC-USD" 5] = []) ∧
     (∀ m, get_last_timestamp [mkRow "BTC-USD" 5] "BTC-USD" = some m →
       (∃ r ∈ [mkRow "BTC-USD" 5], r.product = "BTC-USD" ∧ r.timestamp = m) ∧
       ∀ r ∈ [mkRow "BTC-USD" 5], r.product = "BTC-USD" → r.timestamp ≤ m)) :=
  ⟨by decide, c7_last_timestamp [mkRow "BTC-USD" 5] "BTC-USD" (by decide)⟩

/-- The key column of every stored row, in table order. -/
def keysOf (conn : List DbRow) : List (String × ℤ) :=
  conn.map keyOf

/-- One upsert leaves the key list unchanged when the key is present
and appends it otherwise. -/
theorem keysOf_upsertRow (conn : List DbRow) (row : DbRow) :
    keysOf (upsertRow conn row) =
      if keyOf row ∈ keysOf conn then keysOf conn
      else keysOf conn ++ [keyOf row] := by
  by_cases h : conn.any (fun r => decide (keyOf r = keyOf row)) = true
  · have hmem : keyOf row ∈ keysOf conn := by
      obtain ⟨r, hr, hpr⟩ := List.any_eq_true.mp h
      exact List.mem_map.mpr ⟨r, hr, of_decide_eq_true hpr⟩
    rw [if_pos hmem]
    simp only [upsertRow, h, if_true]
    simp only [keysOf, List.map_map]
    refine List.map_congr_left ?_
    intro r _
    by_cases hk : keyOf r = keyOf row
    · simp [Function.comp, hk]
    · simp [Function.comp, hk]
  · have hmem : keyOf row ∉ keysOf conn := by
      intro hc
      obtain ⟨r, hr, hkr⟩ := List.mem_map.mp hc
      exact h (List.any_eq_true.mpr ⟨r, hr, decide_eq_true hkr⟩)
    rw [if_neg hmem]
    simp only [upsertRow, h, if_false]
    simp [keysOf]

/-- Upserting can only extend the key list. -/
theorem mem_keysOf_upsertRow_mono {k : String × ℤ} {conn : List DbRow}
    (row : DbRow) (h : k ∈ keysOf conn) : k ∈ keysOf (upsertRow conn row) := by
  rw [keysOf_upsertRow]
  by_cases hmem : keyOf row ∈ keysOf conn
  · rwa [if_pos hmem]
  · rw [if_neg hmem]
    exact List.mem_append_left _ h

/-- After an upsert, the upserted key is present. -/
theorem mem_keysOf_upsertRow_self (conn : List DbRow) (row : DbRow) :
    keyOf row ∈ keysOf (upsertRow conn row) := by
  rw [keysOf_upsertRow]
  by_cases hmem : keyOf row ∈ keysOf conn
  · rwa [if_pos hmem]
  · rw [if_neg hmem]
    exact List.mem_append_right _ (List.mem_singleton.mpr rfl)

/-- A whole batch of upserts can only extend the key list. -/
theorem mem_keysOf_foldl_mono {k : String × ℤ} (rows : List DbRow) :
    ∀ conn : List DbRow, k ∈ keysOf conn →
      k ∈ keysOf (rows.foldl upsertRow conn) := by
  induction rows with
  | nil => intro conn h; exact h
  | cons row rest ih =>
    intro conn h
    exact ih (upsertRow conn row) (mem_keysOf_upsertRow_mono row h)

/-- After a batch of upserts every upserted key is present. -/
theorem mem_keysOf_foldl_self {row : DbRow} (rows : List DbRow) :
    ∀ conn : List DbRow, row ∈ rows →
      keyOf row ∈ keysOf (rows.foldl upsertRow conn) := by
  induction rows with
  | nil => intro conn h; exact absurd h (List.not_mem_nil row)
  | cons r0 rest ih =>
    intro conn h
    rcases List.mem_cons.mp h with h | h
    · subst h
      exact mem_keysOf_foldl_mono rest (upsertRow conn row)
        (mem_keysOf_upsertRow_self conn row)
    · exact ih (upsertRow conn r0) h

/-- A batch of upserts whose keys are all already present leaves the
key list unchanged. -/
theorem keysOf_foldl_of_all_mem (rows : List DbRow) :
    ∀ conn : List DbRow, (∀ row ∈ rows, keyOf row ∈ keysOf conn) →
      keysOf (rows.foldl upsertRow conn) = keysOf conn := by
  induction rows with
  | nil => intro conn _; rfl
  | cons r0 rest ih =>
    intro conn h
    have h0 : keyOf r0 ∈ keysOf conn := h r0 (List.mem_cons_self r0 rest)
    have hkeys : keysOf (upsertRow conn r0) = keysOf conn := by
      rw [keysOf_upsertRow, if_pos h0]
    calc keysOf (rest.foldl upsertRow (upsertRow conn r0))
        = keysOf (upsertRow conn r0) := by
          refine ih (upsertRow conn r0) ?_
          intro row hrow
          rw [hkeys]
          exact h row (List.mem_cons_of_mem r0 hrow)
      _ = keysOf conn := hkeys

/-- Per-product counts are determined by the key list. -/
theorem get_counts_eq_of_keysOf_eq {conn1 conn2 : List DbRow}
    (h : keysOf conn1 = keysOf conn2) (p : String) :
    get_counts conn1 p = get_counts conn2 p := by
  have hcount : ∀ conn : List DbRow,
      get_counts conn p = (keysOf conn).countP (fun k => decide (k.1 = p)) := by
    intro conn
    simp only [get_counts, keysOf, List.countP_map]
    rw [← List.countP_eq_length_filter]
    rfl
  rw [hcount conn1, hcount conn2, h]

/-- C4: upserting the same ordered candle sequence twice produces the
same per-product row counts as upserting it once; the second pass only
replaces rows whose `(product, timestamp)` key is already present, so no
duplicate rows appear. -/
theorem c4_upsert_idempotent_counts (conn : List DbRow)
    (candles : List Candle) (p : String) :
    get_counts (insert_candles (insert_candles conn candles).1 candles).1 p =
      get_counts (insert_candles conn candles).1 p := by
  cases hc : candles.isEmpty
  · simp only [insert_candles, hc, if_false]
    refine get_counts_eq_of_keysOf_eq ?_ p
    refine keysOf_foldl_of_all_mem _ _ ?_
    intro row hrow
    exact mem_keysOf_foldl_self _ conn hrow
  · simp [insert_candles, hc]

/-- C5: if the store already holds a row with key
`(c.product, c.timestamp)` (with a different `close` value), upserting
`c` replaces that row in place — a lookup by the key now returns exactly
the new row, with all derived fields taken from `c` — and per-product
counts are unchanged. -/
theorem c5_replace_in_place (conn : List DbRow) (c : Candle)
    (hmem : ∃ r ∈ conn, keyOf r = (c.product, c.timestamp) ∧
      r.close ≠ c.close) :
    (insert_candles conn [c]).1.find?
        (fun r => decide (keyOf r = (c.product, c.timestamp)))
      = some (rowOfCandle c) ∧
    ∀ p, get_counts (insert_candles conn [c]).1 p = get_counts conn p := by
  obtain ⟨r0, hr0, hr0k, _⟩ := hmem
  have hkey : keyOf (rowOfCandle c) = (c.product, c.timestamp) := rfl
  have hany : conn.any (fun r => decide (keyOf r = keyOf (rowOfCandle c)))
      = true :=
    List.any_eq_true.mpr ⟨r0, hr0, decide_eq_true (hkey ▸ hr0k)⟩
  have hins : (insert_candles conn [c]).1 =
      conn.map (fun r =>
        if keyOf r = keyOf (rowOfCandle c) then rowOfCandle c else r) := by
    simp only [insert_candles, List.isEmpty_cons, Bool.false_eq_true,
      if_false, List.map_cons, List.map_nil, List.foldl_cons, List.foldl_nil,
      upsertRow, hany, if_true]
  constructor
  · rw [hins]
    clear hins hany
    induction conn with
    | nil => exact absurd hr0 (List.not_mem_nil r0)
    | cons r1 rest ih =>
      by_cases h1 : keyOf r1 = keyOf (rowOfCandle c)
      · simp only [List.map_cons, if_pos h1]
        exact List.find?_cons_of_pos _ (by simp [hkey])
      · rcases List.mem_cons.mp hr0 with h | h
        · exact absurd (h ▸ hr0k) (by rw [hkey] at h1; exact h1)
        · simp only [List.map_cons, if_neg h1]
          rw [List.find?_cons_of_neg _ (by simpa using h1)]
          exact ih h
  · intro p
    rw [hins]
    refine get_counts_eq_of_keysOf_eq ?_ p
    simp only [keysOf, List.map_map]
    refine List.map_congr_left ?_
    intro r _
    by_cases hk : keyOf r = keyOf (rowOfCandle c)
    · simp only [Function.comp, if_pos hk]
      exact hk.symm
    · simp only [Function.comp, if_neg hk]

/-- A sample enriched candle sharing the key of `mkRow "BTC-USD" 7` but
with a different close value. -/
def sampleCandle : Candle :=
  { product := "BTC-USD", timestamp := 7,
    datetime := "1970-01-01T00:00:07+00:00", open_ := 1, high := 3, low := 1,
    close := 2, volume := 5, avg_price := 2, price_change := 1,
    price_change_pct := 100 }

/-- C5 witness: a one-row store, upserting a candle with the same key
and a different close. -/
theorem c5_replace_in_place_witness :
    (∃ r ∈ [mkRow "BTC-USD" 7], keyOf r = ("BTC-USD", (7 : ℤ)) ∧
      r.close ≠ (2 : ℚ)) ∧
    ((insert_candles [mkRow "BTC-USD" 7] [sampleCandle]).1.find?
        (fun r => decide (keyOf r = ("BTC-USD", (7 : ℤ))))
      = some (rowOfCandle sampleCandle) ∧
     ∀ p, get_counts (insert_candles [mkRow "BTC-USD" 7] [sampleCandle]).1 p
        = get_counts [mkRow "BTC-USD" 7] p) :=
  ⟨⟨mkRow "BTC-USD" 7, List.mem_singleton.mpr rfl, rfl, by decide⟩,
   c5_replace_in_place [mkRow "BTC-USD" 7] sampleCandle
     ⟨mkRow "BTC-USD" 7, List.mem_singleton.mpr rfl, rfl, by decide⟩⟩

/-- Decomposition of membership in a transformed batch. -/
theorem mem_transform_product_data {raws : List (List ℚ)} {product : String}
    {c : Candle} :
    c ∈ transform_product_data raws product ↔
      ∃ r ∈ raws, is_valid r = true ∧ c = transform_candle r product := by
  simp only [transform_product_data]
  rw [(List.perm_insertionSort tsLE _).mem_iff]
  simp only [List.mem_map, List.mem_filter]
  constructor
  · rintro ⟨r, ⟨hr, hv⟩, rfl⟩
    exact ⟨r, hr, hv, rfl⟩
  · rintro ⟨r, hr, hv, rfl⟩
    exact ⟨r, ⟨hr, hv⟩, rfl⟩

unseal Rat.mul Rat.inv Rat.add Rat.sub Rat.ofScientific in
/-- C6 counterexample: two identical valid raw candles (same timestamp
1) are both kept, so the output is sorted but not strictly ascending by
timestamp. -/
theorem c6_counterexample :
    ¬ List.Pairwise (fun a b : Candle => a.timestamp < b.timestamp)
      (transform_product_data [[1, 1, 2, 1, 1, 0], [1, 1, 2, 1, 1, 0]]
        "BTC-USD") := by
  decide

/-- C6 (amended): `transform_product_data` filters out the invalid
entries and returns the transformed remainder sorted in non-decreasing
timestamp order (the output is a permutation of the transformed valid
entries); the order is strictly ascending whenever the integer
timestamps of the transformed valid entries are pairwise distinct —
duplicate timestamps survive the stable sort side by side, so strictness
cannot hold unconditionally (see the counterexample). -/
theorem c6_transform_sorted (raws : List (List ℚ)) (product : String) :
    List.Pairwise (fun a b : Candle => a.timestamp ≤ b.timestamp)
      (transform_product_data raws product) ∧
    (transform_product_data raws product).Perm
      ((raws.filter is_valid).map (fun c => transform_candle c product)) ∧
    ((((raws.filter is_valid).map (fun c => transform_candle c product)).map
        (fun c => c.timestamp)).Nodup →
      List.Pairwise (fun a b : Candle => a.timestamp < b.timestamp)
        (transform_product_data raws product)) := by
  have hsorted : List.Pairwise tsLE (transform_product_data raws product) :=
    List.sorted_insertionSort tsLE _
  have hperm : (transform_product_data raws product).Perm
      ((raws.filter is_valid).map (fun c => transform_candle c product)) :=
    List.perm_insertionSort tsLE _
  refine ⟨hsorted, hperm, ?_⟩
  intro hnodup
  have hnodup2 : ((transform_product_data raws product).map
      (fun c => c.timestamp)).Nodup :=
    ((hperm.map (fun c => c.timestamp)).nodup_iff).mpr hnodup
  have hne : List.Pairwise (fun a b : Candle => a.timestamp ≠ b.timestamp)
      (transform_product_data raws product) :=
    List.pairwise_map.mp hnodup2
  exact (hsorted.and hne).imp (fun h => lt_of_le_of_ne h.1 h.2)

unseal Rat.mul Rat.inv Rat.add Rat.sub Rat.ofScientific in
/-- C6 witness: a two-candle input arriving in reverse timestamp order
with distinct timestamps; the output is strictly ascending. -/
theorem c6_transform_sorted_witness :
    ((((List.filter is_valid [[2, 1, 2, 1, 1, 0], [1, 1, 2, 1, 1, 0]]).map
        (fun c => transform_candle c "BTC-USD")).map
          (fun c => c.timestamp)).Nodup) ∧
    List.Pairwise (fun a b : Candle => a.timestamp < b.timestamp)
      (transform_product_data [[2, 1, 2, 1, 1, 0], [1, 1, 2, 1, 1, 0]]
        "BTC-USD") :=
  ⟨by decide,
   (c6_transform_sorted [[2, 1, 2, 1, 1, 0], [1, 1, 2, 1, 1, 0]]
     "BTC-USD").2.2 (by decide)⟩

unseal Rat.mul Rat.inv Rat.add Rat.sub Rat.ofScientific in
/-- C10 counterexample: the fractional timestamp 1/2 passes validation
(`ts <= 0` is false) but `int(ts)` truncates it to 0, so the produced
record violates `timestamp > 0`. -/
theorem c10_counterexample :
    ∃ c ∈ transform_product_data [[(1 : ℚ)/2, 100, 200, 150, 180, 10]]
      "BTC-USD", ¬ 0 < c.timestamp := by
  decide

/-- C10 (amended): every record produced by `transform_product_data`
carries the given product name, a timestamp `>= 0`, positive
open/high/low/close, non-negative volume, and `high >= low`; the
timestamp is moreover strictly positive whenever every valid raw candle
in the input has timestamp `>= 1` — in particular for integer
epoch-second timestamps, as delivered by the API.  (Unconditional
`timestamp > 0` fails for fractional raw timestamps in (0,1), see the
counterexample.) -/
theorem c10_transform_invariants (raws : List (List ℚ)) (product : String) :
    (∀ c ∈ transform_product_data raws product,
      c.product = product ∧ 0 ≤ c.timestamp ∧ 0 < c.open_ ∧ 0 < c.high ∧
        0 < c.low ∧ 0 < c.close ∧ 0 ≤ c.volume ∧ c.low ≤ c.high) ∧
    ((∀ ts low high open_ close vol : ℚ,
        [ts, low, high, open_, close, vol] ∈ raws →
        is_valid [ts, low, high, open_, close, vol] = true → 1 ≤ ts) →
      ∀ c ∈ transform_product_data raws product, 0 < c.timestamp) := by
  constructor
  · intro c hc
    obtain ⟨r, hr, hv, rfl⟩ := mem_transform_product_data.mp hc
    obtain ⟨ts, low, high, open_, close, vol, rfl⟩ := is_valid_shape hv
    obtain ⟨hts, hlow, hhigh, hopen, hclose, hvol, hhl⟩ :=
      (is_valid_iff ts low high open_ close vol).mp hv
    refine ⟨rfl, ?_, hopen, hhigh, hlow, hclose, hvol, hhl⟩
    show 0 ≤ pyInt ts
    rw [pyInt, if_pos (le_of_lt hts)]
    exact Int.floor_nonneg.mpr (le_of_lt hts)
  · intro hone c hc
    obtain ⟨r, hr, hv, rfl⟩ := mem_transform_product_data.mp hc
    obtain ⟨ts, low, high, open_, close, vol, rfl⟩ := is_valid_shape hv
    obtain ⟨hts, _, _, _, _, _, _⟩ :=
      (is_valid_iff ts low high open_ close vol).mp hv
    have h1 : (1 : ℚ) ≤ ts := hone ts low high open_ close vol hr hv
    show 0 < pyInt ts
    rw [pyInt, if_pos (le_of_lt hts)]
    have : (1 : ℤ) ≤ ⌊ts⌋ := Int.le_floor.mpr (by exact_mod_cast h1)
    omega

/-- C10 witness: the strict-positivity part applied to the integral
example candle. -/
theorem c10_transform_invariants_witness :
    (∀ ts low high open_ close vol : ℚ,
      [ts, low, high, open_, close, vol] ∈
        [[(1700000000 : ℚ), 100, 200, 150, 180, 10]] →
      is_valid [ts, low, high, open_, close, vol] = true → 1 ≤ ts) ∧
    (∀ c ∈ transform_product_data [[(1700000000 : ℚ), 100, 200, 150, 180, 10]]
      "BTC-USD", 0 < c.timestamp) := by
  have harg : ∀ ts low high open_ close vol : ℚ,
      [ts, low, high, open_, close, vol] ∈
        [[(1700000000 : ℚ), 100, 200, 150, 180, 10]] →
      is_valid [ts, low, high, open_, close, vol] = true → 1 ≤ ts := by
    intro ts low high open_ close vol hmem _
    have h := List.mem_singleton.mp hmem
    simp only [List.cons.injEq, and_true] at h
    rw [h.1]
    norm_num
  exact ⟨harg,
    (c10_transform_invariants [[(1700000000 : ℚ), 100, 200, 150, 180, 10]]
      "BTC-USD").2 harg⟩

/-- The truthiness filter inside `get_last_timestamp` never lets the
value 0 through. -/
theorem get_last_timestamp_ne_some_zero (conn : List DbRow) (p : String) :
    get_last_timestamp conn p ≠ some 0 := by
  simp only [get_last_timestamp]
  cases hmax : (List.map (fun r => r.timestamp)
      (List.filter (fun r => decide (r.product = p)) conn)).max? with
  | none => simp
  | some m =>
    by_cases hm : m = 0
    · simp [hm]
    · simp only [if_neg hm]
      intro h
      exact hm (by injection h)

/-- C3 counterexample: an explicit — but empty — caller-supplied start
string is not used verbatim: Python's `if start:` treats `""` as
absent, so the incremental branch runs instead. -/
theorem c3_counterexample :
    plan_fetch_start [mkRow "BTC-USD" 1700000000] "BTC-USD" (some "") true
        = "2023-11-14T22:13:21+00:00" ∧
    plan_fetch_start [mkRow "BTC-USD" 1700000000] "BTC-USD" (some "") true
        ≠ "" := by
  constructor
  · decide
  · decide

/-- C3 (amended): the fetch-window start is chosen by this decision
order, first match wins: a **non-empty** explicit caller-supplied start
is used verbatim, overriding `incremental` (an empty-string start is
falsy in Python and treated as absent, see the counterexample);
otherwise, if `incremental` is true and `last_timestamp(product)` is
present, the start is the ISO-8601 UTC instant for
`last_timestamp + 1` second; otherwise the configured fallback start is
used. -/
theorem c3_plan_window (conn : List DbRow) (product : String)
    (start : Option String) (incremental : Bool) :
    (∀ s, start = some s → s ≠ "" →
      plan_fetch_start conn product start incremental = s) ∧
    (pyTruthyStrOpt start = false → incremental = true →
      (∀ t, get_last_timestamp conn product = some t →
        plan_fetch_start conn product start incremental
          = isoFromEpoch (t + 1)) ∧
      (get_last_timestamp conn product = none →
        plan_fetch_start conn product start incremental = START_DATE)) ∧
    (pyTruthyStrOpt start = false → incremental = false →
      plan_fetch_start conn product start incremental = START_DATE) := by
  refine ⟨?_, ?_, ?_⟩
  · intro s hs hne
    subst hs
    simp [plan_fetch_start, pyTruthyStrOpt, hne]
  · intro hfalse hinc
    subst hinc
    constructor
    · intro t ht
      have htz : ¬ t = 0 := fun h =>
        get_last_timestamp_ne_some_zero conn product (h ▸ ht)
      simp [plan_fetch_start, hfalse, ht, pyTruthyIntOpt, htz]
    · intro ht
      simp [plan_fetch_start, hfalse, ht, pyTruthyIntOpt]
  · intro hfalse hinc
    subst hinc
    simp [plan_fetch_start, hfalse]

/-- C3 witness: the three branches exercised on concrete stores — a
non-empty explicit start wins; with no explicit start and a stored last
timestamp 1700000000 the incremental start is the ISO instant of
1700000001; with no prior data or with `incremental = false` the
fallback start is used. -/
theorem c3_plan_window_witness :
    ("2025-01-01T00:00:00Z" ≠ "" ∧
     plan_fetch_start [mkRow "BTC-USD" 1700000000] "BTC-USD"
        (some "2025-01-01T00:00:00Z") true = "2025-01-01T00:00:00Z") ∧
    (get_last_timestamp [mkRow "BTC-USD" 1700000000] "BTC-USD"
        = some 1700000000 ∧
     plan_fetch_start [mkRow "BTC-USD" 1700000000] "BTC-USD" none true
        = isoFromEpoch 1700000001 ∧
     isoFromEpoch 1700000001 = "2023-11-14T22:13:21+00:00") ∧
    (get_last_timestamp [] "BTC-USD" = none ∧
     plan_fetch_start [] "BTC-USD" none true = START_DATE) ∧
    plan_fetch_start [mkRow "BTC-USD" 1700000000] "BTC-USD" none false
        = START_DATE :=
  ⟨⟨by decide,
    (c3_plan_window [mkRow "BTC-USD" 1700000000] "BTC-USD"
      (some "2025-01-01T00:00:00Z") true).1 "2025-01-01T00:00:00Z" rfl
      (by decide)⟩,
   ⟨by decide,
    ((c3_plan_window [mkRow "BTC-USD" 1700000000] "BTC-USD" none true).2.1
      rfl rfl).1 1700000000 (by decide),
    by decide⟩,
   ⟨by decide,
    ((c3_plan_window [] "BTC-USD" none true).2.1 rfl rfl).2 (by decide)⟩,
   (c3_plan_window [mkRow "BTC-USD" 1700000000] "BTC-USD" none false).2.2
     rfl rfl⟩

/-- When the loop finishes without error, every product was processed,
in order. -/
theorem runLoop_err_none_processed
    (fetchFn : String → String → String → Except String (List (List ℚ)))
    (start : Option String) (endD : String) (incremental : Bool)
    (prods : List String) :
    ∀ (conn : List DbRow) (stats : RunStats) (processed : List String),
      (runLoop fetchFn start endD incremental prods conn stats processed).err
          = none →
      (runLoop fetchFn start endD incremental prods conn stats
        processed).processed = processed ++ prods := by
  induction prods with
  | nil =>
    intro conn stats processed _
    simp [runLoop]
  | cons p rest ih =>
    intro conn stats processed herr
    simp only [runLoop] at herr ⊢
    cases hf : fetchFn p (plan_fetch_start conn p start incremental) endD with
    | error e =>
      rw [hf] at herr
      simp at herr
    | ok raw =>
      rw [hf] at herr
      simp only [] at herr ⊢
      by_cases hraw : raw.isEmpty
      · simp only [hraw, eq_self_iff_true, if_true] at herr ⊢
        rw [ih _ _ _ herr]
        simp
      · simp only [hraw, Bool.false_eq_true, if_false] at herr ⊢
        rw [ih _ _ _ herr]
        simp

/-- When the loop stops with an error, the processed products are
exactly an initial segment of the list ending at the failing product,
whose fetch call raised that very error; the products after it are never
reached. -/
theorem runLoop_err_some
    (fetchFn : String → String → String → Except String (List (List ℚ)))
    (start : Option String) (endD : String) (incremental : Bool)
    (prods : List String) :
    ∀ (conn : List DbRow) (stats : RunStats) (processed : List String) (e : String),
      (runLoop fetchFn start endD incremental prods conn stats processed).err
          = some e →
      ∃ pre p post, prods = pre ++ p :: post ∧
        (runLoop fetchFn start endD incremental prods conn stats
          processed).processed = processed ++ pre ++ [p] ∧
        ∃ s, fetchFn p s endD = Except.error e := by
  induction prods with
  | nil =>
    intro conn stats processed e herr
    simp [runLoop] at herr
  | cons p rest ih =>
    intro conn stats processed e herr
    simp only [runLoop] at herr ⊢
    cases hf : fetchFn p (plan_fetch_start conn p start incremental) endD with
    | error e0 =>
      rw [hf] at herr
      simp only [] at herr ⊢
      have he : e0 = e := by injection herr
      subst he
      refine ⟨[], p, rest, rfl, by simp, ?_⟩
      exact ⟨plan_fetch_start conn p start incremental, hf⟩
    | ok raw =>
      rw [hf] at herr
      simp only [] at herr ⊢
      by_cases hraw : raw.isEmpty
      · simp only [hraw, eq_self_iff_true, if_true] at herr ⊢
        obtain ⟨pre, p1, post, hrest, hproc, s, hs⟩ := ih _ _ _ _ herr
        refine ⟨p :: pre, p1, post, by rw [hrest]; simp, ?_, s, hs⟩
        rw [hproc]
        simp
      · simp only [hraw, Bool.false_eq_true, if_false] at herr ⊢
        obtain ⟨pre, p1, post, hrest, hproc, s, hs⟩ := ih _ _ _ _ herr
        refine ⟨p :: pre, p1, post, by rw [hrest]; simp, ?_, s, hs⟩
        rw [hproc]
        simp

/-- C8: the connection is released exactly once on every exit path; and
when an error is raised while processing one product it propagates
immediately — the run's outcome is that error, the processed products
are exactly the products up to and including the failing one, and the
remaining products are never processed.  (Errors enter the model
through the external fetch call, the failure source of the loop body.) -/
theorem c8_error_propagation
    (fetchFn : String → String → String → Except String (List (List ℚ)))
    (products : Option (List String)) (start : Option String)
    (endOpt : Option String) (incremental : Bool) (db : List DbRow) :
    (run fetchFn products start endOpt incremental db).connCloses = 1 ∧
    (∀ e, (run fetchFn products start endOpt incremental db).result
        = Except.error e →
      ∃ pre p post,
        (if pyTruthyListOpt products then products.getD [] else PRODUCTS)
          = pre ++ p :: post ∧
        (run fetchFn products start endOpt incremental db).processed
          = pre ++ [p] ∧
        ∃ s, fetchFn p s
          (if pyTruthyStrOpt endOpt then endOpt.getD "" else END_DATE)
          = Except.error e) := by
  simp only [run]
  cases herr : (runLoop fetchFn start
      (if pyTruthyStrOpt endOpt then endOpt.getD "" else END_DATE) incremental
      (if pyTruthyListOpt products then products.getD [] else PRODUCTS) db
      { fetched := 0, transformed := 0, loaded := 0 } []).err with
  | none =>
    simp only []
    exact ⟨trivial, fun e he => absurd he (by simp)⟩
  | some e0 =>
    simp only []
    refine ⟨trivial, ?_⟩
    intro e he
    have he0 : e0 = e := by injection he
    subst he0
    obtain ⟨pre, p, post, hprods, hproc, s, hs⟩ :=
      runLoop_err_some fetchFn start _ incremental _ db
        { fetched := 0, transformed := 0, loaded := 0 } [] e0 herr
    exact ⟨pre, p, post, hprods, by rw [hproc]; simp, s, hs⟩

/-- A fetch oracle that always raises. -/
def failFetch : String → String → String → Except String (List (List ℚ)) :=
  fun _ _ _ => Except.error "boom"

/-- C8 witness: with an always-failing fetch the run stops at the first
configured product, reports that error, and the second configured
product is never processed. -/
theorem c8_error_propagation_witness :
    (run failFetch none none none true []).result = Except.error "boom" ∧
    (∃ pre p post,
      PRODUCTS = pre ++ p :: post ∧
      (run failFetch none none none true []).processed = pre ++ [p] ∧
      ∃ s, failFetch p s END_DATE = Except.error "boom") :=
  ⟨rfl, (c8_error_propagation failFetch none none none true []).2 "boom" rfl⟩

/-- C9: when the fetch for a product returns an empty sequence, that
iteration of the loop changes nothing but the processed list — the
store is untouched, no error is raised, and the `transformed` and
`loaded` counters receive zero contribution (`fetched` grows by the
empty length 0); and upserting the empty sequence is a no-op returning
0. -/
theorem c9_empty_fetch
    (fetchFn : String → String → String → Except String (List (List ℚ)))
    (start : Option String) (endD : String) (incremental : Bool)
    (p : String) (rest : List String) (conn : List DbRow) (stats : RunStats)
    (processed : List String)
    (hfetch : fetchFn p (plan_fetch_start conn p start incremental) endD
      = Except.ok []) :
    runLoop fetchFn start endD incremental (p :: rest) conn stats processed
        = runLoop fetchFn start endD incremental rest conn stats
            (processed ++ [p]) ∧
    insert_candles conn [] = (conn, 0) := by
  constructor
  · simp [runLoop, hfetch]
  · simp [insert_candles]

/-- C9 witness: a fetch oracle returning no candles; one loop step over
"BTC-USD" on the empty store reduces to the remaining loop with nothing
changed, and the empty upsert is a no-op. -/
theorem c9_empty_fetch_witness :
    ((fun (_ _ _ : String) =>
        (Except.ok [] : Except String (List (List ℚ)))) "BTC-USD"
        (plan_fetch_start [] "BTC-USD" none true) END_DATE
      = Except.ok []) ∧
    (runLoop (fun _ _ _ => Except.ok []) none END_DATE true ["BTC-USD"] []
        { fetched := 0, transformed := 0, loaded := 0 } []
      = runLoop (fun _ _ _ => Except.ok []) none END_DATE true [] []
          { fetched := 0, transformed := 0, loaded := 0 } ([] ++ ["BTC-USD"]) ∧
     insert_candles [] [] = ([], 0)) :=
  ⟨rfl, c9_empty_fetch (fun _ _ _ => Except.ok []) none END_DATE true
    "BTC-USD" [] [] { fetched := 0, transformed := 0, loaded := 0 } [] rfl⟩

/-- C2 witness: the boundary applied at the spec's concrete examples. -/
theorem c2_validation_boundary_witness :
    is_valid [0, 10, 20, 15, 18, 5] = false ∧
    is_valid [1700000000, 25, 20, 22, 21, 5] = false ∧
    is_valid [1700000000, 10, 20, 15, 18, -1] = false :=
  ⟨(c2_validation_boundary _).mpr
      (Or.inr ⟨0, 10, 20, 15, 18, 5, rfl, Or.inl (by norm_num)⟩),
   (c2_validation_boundary _).mpr
      (Or.inr ⟨1700000000, 25, 20, 22, 21, 5, rfl,
        Or.inr (Or.inr (Or.inr (Or.inr (Or.inr (Or.inr (by norm_num))))))⟩),
   (c2_validation_boundary _).mpr
      (Or.inr ⟨1700000000, 10, 20, 15, 18, -1, rfl,
        Or.inr (Or.inr (Or.inr (Or.inr (Or.inr (Or.inl (by norm_num))))))⟩)⟩
